import Mathlib

/-!
Shallow embedding of the coverage-verification core of the
`RectilinearDroneSearching` repository (`src/utils.py`), together with
proofs and refutations of the specification claims about it.

Modelling conventions:
* Python floats are modelled as exact numbers: `ℚ` for code paths that use
  only field operations and order comparisons (the quadtree checker, the
  interval merge, the binary search, the precision controller), and `ℝ`
  for code paths that use `math.sqrt` / `math.atan2` / `math.cos` /
  `math.sin` (`get_horizontal_line`, `get_distance_traveled`,
  `get_intersections`, `rotate_circles`).
* The external `shapely` polygon library (not part of the repository) is
  modelled by exact point sets in `ℝ × ℝ`: `buffer` of a point is the
  closed disk (the idealisation of the polygon tessellation), `difference`
  is set difference, `union_all` is the union, and `.area` is the
  two-dimensional Lebesgue measure.
* Python code that raises an exception (`ZeroDivisionError` in
  `get_distance_traveled`, `ValueError` in `binary_search`, `IndexError`
  in `rotate_circles`) is modelled with `Option` / `Except`, returning
  `none` / `.error` exactly where the Python call raises.
-/

namespace Drone

/-- `class Circle(NamedTuple)` of `src/utils.py`: a circle given by its
center `(x, y)` and radius `r`.  The Python floats are modelled by an
arbitrary coordinate type `α` (`ℚ` or `ℝ` at use sites). -/
structure Circle (α : Type) where
  x : α
  y : α
  r : α
  deriving DecidableEq, Repr

/-- `class Square(NamedTuple)` of `src/utils.py`: `(x, y)` is the bottom
left corner.  Squares only occur in the quadtree checker, which uses no
irrational operations, so the coordinates are `ℚ`. -/
structure Square where
  x : ℚ
  y : ℚ
  side_length : ℚ
  deriving DecidableEq, Repr

/-- `class HorizontalLine(NamedTuple)` of `src/utils.py`.  The Python
field `end` is a Lean keyword and is called `stop` here. -/
structure HorizontalLine (α : Type) where
  start : α
  stop : α
  deriving DecidableEq, Repr

/-- `UNIT_CIRCLE = Circle(0.0, 0.0, 1.0)` (rational version). -/
def UNIT_CIRCLE : Circle ℚ := ⟨0, 0, 1⟩

/-- `UNIT_CIRCLE = Circle(0.0, 0.0, 1.0)` (real version, for the code
paths modelled over `ℝ`). -/
def UNIT_CIRCLE_R : Circle ℝ := ⟨0, 0, 1⟩

/-- Model of `Precision.get_circle_polygon` (`src/utils.py`, lines 56-59):
`shapely.Point(x, y).buffer(r, quad_segs)` is modelled as the exact closed
disk, the idealisation of the polygon tessellation whose resolution the
`quad_segs` parameter controls. -/
def get_circle_polygon (circle : Circle ℝ) : Set (ℝ × ℝ) :=
  {p | (p.1 - circle.x) ^ 2 + (p.2 - circle.y) ^ 2 ≤ circle.r ^ 2}

/-- `@dataclass class Precision` of `src/utils.py` (lines 39-59): the
process-wide precision state.  `precision` is a Python `int`, `epsilon`
a float that is always an exact decimal, hence `ℚ`. -/
structure Precision where
  precision : ℤ
  epsilon : ℚ
  unit_circle_polygon : Set (ℝ × ℝ)

/-- `Precision.set_precision` (`src/utils.py`, lines 48-54).  Python's
floor division `precision // 2` is `Int.fdiv`, and
`1 / 10 ** (precision // 2)` is exact in `ℚ`. -/
def set_precision (self : Precision) (precision : ℤ) : Precision :=
  if precision = self.precision then self
  else
    { precision := precision
      epsilon := 1 / (10 : ℚ) ^ (Int.fdiv precision 2)
      unit_circle_polygon := get_circle_polygon UNIT_CIRCLE_R }

/-- `PRECISION = Precision()` (`src/utils.py`, line 61), with the dataclass
defaults `precision = 7`, `epsilon = 1e-3` and the unit-circle polygon
computed by `__post_init__`. -/
def PRECISION : Precision :=
  { precision := 7
    epsilon := 1 / 1000
    unit_circle_polygon := get_circle_polygon UNIT_CIRCLE_R }

/-! ### Interval merge (`get_line_union`) -/

/-- The merge loop of `get_line_union` (`src/utils.py`, lines 149-161):
fold over the sorted tail, fusing a line into `current` when its start is
`<=` the current end, otherwise emitting `current` and starting afresh. -/
def get_line_union_go {α : Type} [LinearOrder α] (current : HorizontalLine α) :
    List (HorizontalLine α) → List (HorizontalLine α)
  | [] => [current]
  | line :: rest =>
    if line.start ≤ current.stop then
      get_line_union_go ⟨current.start, max current.stop line.stop⟩ rest
    else
      current :: get_line_union_go line rest

/-- `get_line_union` (`src/utils.py`, lines 141-161): sort by start
coordinate (Python's `sorted` with a key, a stable sort, modelled by
`List.mergeSort`), then merge overlapping lines.  The Python guard
`if not lines: return []` coincides with the `[]` case of the sort. -/
def get_line_union {α : Type} [LinearOrder α] (lines : List (HorizontalLine α)) :
    List (HorizontalLine α) :=
  match lines.mergeSort (fun a b => decide (a.start ≤ b.start)) with
  | [] => []
  | first :: rest => get_line_union_go first rest

/-! ### Geometry primitives of the quadtree checker (exact, over `ℚ`) -/

/-- `is_point_covered` (`src/utils.py`, lines 183-184): inclusive
point-in-circle test via squared distances. -/
def is_point_covered (circle : Circle ℚ) (x y : ℚ) : Bool :=
  decide ((x - circle.x) ^ 2 + (y - circle.y) ^ 2 ≤ circle.r ^ 2)

/-- `is_point_covered_by_any` (`src/utils.py`, lines 186-187). -/
def is_point_covered_by_any (circles : List (Circle ℚ)) (x y : ℚ) : Bool :=
  circles.any fun circle => is_point_covered circle x y

/-- `is_fully_covered` (`src/utils.py`, lines 189-193): all four corners of
the square inside the one circle. -/
def is_fully_covered (square : Square) (circle : Circle ℚ) : Bool :=
  is_point_covered circle square.x square.y &&
  is_point_covered circle (square.x + square.side_length) square.y &&
  is_point_covered circle square.x (square.y + square.side_length) &&
  is_point_covered circle (square.x + square.side_length) (square.y + square.side_length)

/-- The `corners` list computed at each square of the quadtree
(`src/utils.py`, e.g. line 198). -/
def corners (square : Square) : List (ℚ × ℚ) :=
  [(square.x, square.y), (square.x + square.side_length, square.y),
   (square.x, square.y + square.side_length),
   (square.x + square.side_length, square.y + square.side_length)]

/-- `num_outside_unit_circle` (`src/utils.py`, e.g. line 200): the number
of corners outside the unit circle. -/
def num_outside_unit_circle (square : Square) : ℕ :=
  (corners square).countP fun c => !is_point_covered UNIT_CIRCLE c.1 c.2

/-- `num_uncovered_corners` (`src/utils.py`, e.g. line 239): corners that
are inside the unit circle but covered by no candidate circle. -/
def num_uncovered_corners (circles : List (Circle ℚ)) (square : Square) : ℕ :=
  (corners square).countP fun c =>
    is_point_covered UNIT_CIRCLE c.1 c.2 && !is_point_covered_by_any circles c.1 c.2

/-- The four half-side child squares (`subsquares` in `src/utils.py`,
e.g. lines 220-225). -/
def subsquares (square : Square) : List Square :=
  [⟨square.x, square.y, square.side_length / 2⟩,
   ⟨square.x + square.side_length / 2, square.y, square.side_length / 2⟩,
   ⟨square.x, square.y + square.side_length / 2, square.side_length / 2⟩,
   ⟨square.x + square.side_length / 2, square.y + square.side_length / 2,
    square.side_length / 2⟩]

/-! ### Termination measures for the halving recursions -/

/-- Ceiling halving: for `1 < x` the (truncated) ceiling of `x / 2` is
strictly below the ceiling of `x`. -/
theorem ceil_half_toNat_lt {x : ℚ} (hx : 1 < x) : ⌈x / 2⌉.toNat < ⌈x⌉.toNat := by
  have h2 : 2 ≤ ⌈x⌉ := by
    have h1 : (1 : ℤ) < ⌈x⌉ := by
      rw [Int.lt_ceil]; exact_mod_cast hx
    omega
  have h3 : ⌈x / 2⌉ ≤ ⌈x⌉ - 1 := by
    rw [Int.ceil_le]
    push_cast
    have hle : x ≤ (⌈x⌉ : ℚ) := Int.le_ceil x
    have h2q : (2 : ℚ) ≤ (⌈x⌉ : ℚ) := by exact_mod_cast h2
    linarith
  omega

/-- Termination measure for the quadtree recursions: the number of
epsilon-units of side length, as a natural number. -/
def square_measure (s : ℚ) : ℕ := ⌈s * 1000⌉.toNat

/-- The quadtree subdivision step decreases the measure: this is the
recursion bound enforced by the `new_side_length < PRECISION.epsilon`
cutoff in `src/utils.py`. -/
theorem square_measure_half_lt {s : ℚ} (h : ¬ s / 2 < PRECISION.epsilon) :
    square_measure (s / 2) < square_measure s := by
  have h' : (1 / 1000 : ℚ) ≤ s / 2 := by
    rw [show (1 / 1000 : ℚ) = PRECISION.epsilon from rfl]
    exact not_lt.mp h
  have hs : (1 : ℚ) < s * 1000 := by linarith
  have hh : (s / 2) * 1000 = (s * 1000) / 2 := by ring
  unfold square_measure
  rw [hh]
  exact ceil_half_toNat_lt hs

/-! ### Quadtree yes/no checker -/

/-- `is_square_covered` (`src/utils.py`, lines 195-226): the recursive
per-square decision procedure.  The corner loop of lines 206-208 is the
`any` over the corners; the final `all(...)` over the four subsquares is
written as the explicit four-fold conjunction. -/
def is_square_covered (circles : List (Circle ℚ)) (square : Square) : Bool :=
  if num_outside_unit_circle square = 4 then true
  else if (corners square).any (fun c =>
      is_point_covered UNIT_CIRCLE c.1 c.2 &&
      !is_point_covered_by_any circles c.1 c.2) then false
  else if circles.any (fun circle => is_fully_covered square circle) then true
  else if _h : square.side_length / 2 < PRECISION.epsilon then true
  else
    is_square_covered circles
      ⟨square.x, square.y, square.side_length / 2⟩ &&
    is_square_covered circles
      ⟨square.x + square.side_length / 2, square.y, square.side_length / 2⟩ &&
    is_square_covered circles
      ⟨square.x, square.y + square.side_length / 2, square.side_length / 2⟩ &&
    is_square_covered circles
      ⟨square.x + square.side_length / 2, square.y + square.side_length / 2,
       square.side_length / 2⟩
termination_by square_measure square.side_length
decreasing_by
  all_goals exact square_measure_half_lt _h

/-- `covers_unit_circle` (`src/utils.py`, lines 351-354): test the four
top-level quadrant squares. -/
def covers_unit_circle (circles : List (Circle ℚ)) : Bool :=
  [((-1 : ℚ), (-1 : ℚ)), (-1, 0), (0, -1), (0, 0)].all fun c =>
    is_square_covered circles ⟨c.1, c.2, 1⟩

/-! ### Quadtree BFS for the biggest uncovered / semicovered square -/

/-- The initial BFS work queue of the four top-level quadrant squares
(`src/utils.py`, lines 270-271 and 312-313). -/
def initial_queue : List Square :=
  [⟨-1, -1, 1⟩, ⟨-1, 0, 1⟩, ⟨0, -1, 1⟩, ⟨0, 0, 1⟩]

/-- Potential of a square of side `s`: the number of quadtree nodes a
single square can contribute to the BFS work queue over the whole run.
Used only as the termination measure of `search_bfs`. -/
def pot (s : ℚ) : ℕ :=
  if _h : s / 2 < PRECISION.epsilon then 1 else 1 + 4 * pot (s / 2)
termination_by square_measure s
decreasing_by
  exact square_measure_half_lt _h

theorem pot_pos (s : ℚ) : 0 < pot s := by
  unfold pot
  split <;> omega

theorem pot_of_not_small {s : ℚ} (h : ¬ s / 2 < PRECISION.epsilon) :
    pot s = 1 + 4 * pot (s / 2) := by
  conv_lhs => unfold pot
  rw [dif_neg h]

/-- Termination measure of the BFS loop: total potential of the queue. -/
def queue_measure (q : List Square) : ℕ :=
  (q.map fun sq => pot sq.side_length).sum

/-- The common BFS loop of `get_biggest_uncovered_square`
(`src/utils.py`, lines 267-307) and `get_biggest_semicovered_square`
(lines 309-349).  The two Python functions are textually identical except
for the return test `num_uncovered_corners > 3` versus
`num_uncovered_corners > 0`; `threshold` is that constant (3 resp. 0).
`q.popleft()` is the head pattern, `q.extend(subsquares)` the append. -/
def search_bfs (threshold : ℕ) (circles : List (Circle ℚ)) :
    List Square → Option Square
  | [] => none
  | square :: rest =>
    if num_outside_unit_circle square = 4 then
      search_bfs threshold circles rest
    else if threshold < num_uncovered_corners circles square then
      some square
    else if num_uncovered_corners circles square = 0 &&
        circles.any (fun circle => is_fully_covered square circle) then
      search_bfs threshold circles rest
    else if _h : square.side_length / 2 < PRECISION.epsilon then
      search_bfs threshold circles rest
    else
      search_bfs threshold circles (rest ++ subsquares square)
termination_by q => queue_measure q
decreasing_by
  · have := pot_pos square.side_length
    simp only [queue_measure, List.map_cons, List.sum_cons]
    omega
  · have := pot_pos square.side_length
    simp only [queue_measure, List.map_cons, List.sum_cons]
    omega
  · have := pot_pos square.side_length
    simp only [queue_measure, List.map_cons, List.sum_cons]
    omega
  · simp only [queue_measure, List.map_cons, List.sum_cons, List.map_append,
      List.sum_append, subsquares, List.map_nil, List.sum_nil]
    rw [pot_of_not_small _h]
    omega

/-- `get_biggest_uncovered_square` (`src/utils.py`, lines 267-307). -/
def get_biggest_uncovered_square (circles : List (Circle ℚ)) : Option Square :=
  search_bfs 3 circles initial_queue

/-- `get_biggest_semicovered_square` (`src/utils.py`, lines 309-349). -/
def get_biggest_semicovered_square (circles : List (Circle ℚ)) : Option Square :=
  search_bfs 0 circles initial_queue

/-! ### Unfolding (step) lemmas for the recursive checkers -/

set_option maxHeartbeats 1600000 in
/-- BFS step: a square with all four corners outside the unit circle is
dropped (`continue` of `src/utils.py`, line 283). -/
theorem search_bfs_outside {t : ℕ} {c : List (Circle ℚ)} {sq : Square}
    {rest : List Square} (h : num_outside_unit_circle sq = 4) :
    search_bfs t c (sq :: rest) = search_bfs t c rest := by
  conv_lhs => unfold search_bfs
  rw [if_pos h]

set_option maxHeartbeats 1600000 in
/-- BFS step: the first square whose uncovered-corner count exceeds the
threshold is returned (`return square` of `src/utils.py`, line 288). -/
theorem search_bfs_found {t : ℕ} {c : List (Circle ℚ)} {sq : Square}
    {rest : List Square} (h1 : ¬ num_outside_unit_circle sq = 4)
    (h2 : t < num_uncovered_corners c sq) :
    search_bfs t c (sq :: rest) = some sq := by
  conv_lhs => unfold search_bfs
  rw [if_neg h1, if_pos h2]

set_option maxHeartbeats 1600000 in
/-- BFS step: an ambiguous square is subdivided and its four children
appended to the work queue (`q.extend(subsquares)`, line 305). -/
theorem search_bfs_expand {t : ℕ} {c : List (Circle ℚ)} {sq : Square}
    {rest : List Square} (h1 : ¬ num_outside_unit_circle sq = 4)
    (h2 : ¬ t < num_uncovered_corners c sq)
    (h3 : ¬ ((decide (num_uncovered_corners c sq = 0) &&
      c.any fun circle => is_fully_covered sq circle) = true))
    (h4 : ¬ sq.side_length / 2 < PRECISION.epsilon) :
    search_bfs t c (sq :: rest) = search_bfs t c (rest ++ subsquares sq) := by
  conv_lhs => unfold search_bfs
  rw [if_neg h1, if_neg h2, if_neg h3, dif_neg h4]

set_option maxHeartbeats 1600000 in
/-- BFS step: a square certified covered (no uncovered corner and fully
inside one candidate circle) is dropped (`continue`, line 291). -/
theorem search_bfs_covered {t : ℕ} {c : List (Circle ℚ)} {sq : Square}
    {rest : List Square} (h1 : ¬ num_outside_unit_circle sq = 4)
    (h2 : ¬ t < num_uncovered_corners c sq)
    (h3 : (decide (num_uncovered_corners c sq = 0) &&
      c.any fun circle => is_fully_covered sq circle) = true) :
    search_bfs t c (sq :: rest) = search_bfs t c rest := by
  conv_lhs => unfold search_bfs
  rw [if_neg h1, if_neg h2, if_pos h3]

set_option maxHeartbeats 1600000 in
/-- BFS step: a square at the resolution limit is dropped (`continue`,
line 296). -/
theorem search_bfs_small {t : ℕ} {c : List (Circle ℚ)} {sq : Square}
    {rest : List Square} (h1 : ¬ num_outside_unit_circle sq = 4)
    (h2 : ¬ t < num_uncovered_corners c sq)
    (h3 : ¬ ((decide (num_uncovered_corners c sq = 0) &&
      c.any fun circle => is_fully_covered sq circle) = true))
    (h4 : sq.side_length / 2 < PRECISION.epsilon) :
    search_bfs t c (sq :: rest) = search_bfs t c rest := by
  conv_lhs => unfold search_bfs
  rw [if_neg h1, if_neg h2, if_neg h3, dif_pos h4]

set_option maxHeartbeats 1600000 in
/-- Quadtree step: a square with a corner that is inside the unit circle
but covered by no candidate circle is uncovered (`return False` of
`src/utils.py`, line 208). -/
theorem is_square_covered_uncovered {c : List (Circle ℚ)} {sq : Square}
    (h1 : ¬ num_outside_unit_circle sq = 4)
    (h2 : ((corners sq).any fun p =>
      is_point_covered UNIT_CIRCLE p.1 p.2 &&
      !is_point_covered_by_any c p.1 p.2) = true) :
    is_square_covered c sq = false := by
  conv_lhs => unfold is_square_covered
  rw [if_neg h1, if_pos h2]

/-! ### BFS reachability -/

/-- The expansion guard of the BFS: a dequeued square is subdivided (its
children enqueued) iff none of the stopping branches of `src/utils.py`,
lines 282-296, fires. -/
def expandable (t : ℕ) (c : List (Circle ℚ)) (sq : Square) : Prop :=
  ¬ num_outside_unit_circle sq = 4 ∧
  ¬ t < num_uncovered_corners c sq ∧
  ¬ ((decide (num_uncovered_corners c sq = 0) &&
    c.any fun circle => is_fully_covered sq circle) = true) ∧
  ¬ sq.side_length / 2 < PRECISION.epsilon

/-- A square qualifies (triggers `return square`) when its uncovered-corner
count exceeds the threshold (3 for `get_biggest_uncovered_square`, 0 for
`get_biggest_semicovered_square`). -/
def qualifies (t : ℕ) (c : List (Circle ℚ)) (sq : Square) : Prop :=
  t < num_uncovered_corners c sq

/-- The squares of the subdivision the BFS can ever enqueue: the four
top-level quadrants and the children of any reachable square the
per-square decision procedure subdivides. -/
inductive Reaches (t : ℕ) (c : List (Circle ℚ)) : Square → Prop where
  | init (sq : Square) : sq ∈ initial_queue → Reaches t c sq
  | step (sq child : Square) : Reaches t c sq → expandable t c sq →
      child ∈ subsquares sq → Reaches t c child

/-- Descendant relation inside the subdivision: `target` is obtained from
a square by zero or more expansion steps. -/
inductive ReachesFrom (t : ℕ) (c : List (Circle ℚ)) : Square → Square → Prop where
  | refl (sq : Square) : ReachesFrom t c sq sq
  | head (sq child target : Square) : expandable t c sq →
      child ∈ subsquares sq → ReachesFrom t c child target →
      ReachesFrom t c sq target

theorem subsquares_side {sq child : Square} (h : child ∈ subsquares sq) :
    child.side_length = sq.side_length / 2 := by
  simp only [subsquares, List.mem_cons, List.not_mem_nil, or_false] at h
  rcases h with rfl | rfl | rfl | rfl <;> rfl

theorem reaches_side_pos {t : ℕ} {c : List (Circle ℚ)} {sq : Square}
    (h : Reaches t c sq) : 0 < sq.side_length := by
  induction h with
  | init sq hmem =>
    simp only [initial_queue, List.mem_cons, List.not_mem_nil, or_false] at hmem
    rcases hmem with rfl | rfl | rfl | rfl <;> norm_num
  | step sq child hr hexp hmem ih =>
    rw [subsquares_side hmem]
    linarith

theorem reachesFrom_snoc {t : ℕ} {c : List (Circle ℚ)} {e sq : Square}
    (h : ReachesFrom t c e sq) :
    ∀ child, expandable t c sq → child ∈ subsquares sq →
      ReachesFrom t c e child := by
  induction h with
  | refl s =>
    intro child hexp hmem
    exact ReachesFrom.head s child child hexp hmem (ReachesFrom.refl child)
  | head s ch tgt hexp2 hmem2 hrest ih =>
    intro child hexp hmem
    exact ReachesFrom.head s ch child hexp2 hmem2 (ih child hexp hmem)

theorem reaches_ancestor {t : ℕ} {c : List (Circle ℚ)} {sq : Square}
    (h : Reaches t c sq) : ∃ e ∈ initial_queue, ReachesFrom t c e sq := by
  induction h with
  | init s hmem => exact ⟨s, hmem, ReachesFrom.refl s⟩
  | step s child hr hexp hmem ih =>
    obtain ⟨e, he, hrf⟩ := ih
    exact ⟨e, he, reachesFrom_snoc hrf child hexp hmem⟩

theorem reaches_of_reachesFrom {t : ℕ} {c : List (Circle ℚ)} :
    ∀ {e sq : Square}, ReachesFrom t c e sq → Reaches t c e → Reaches t c sq := by
  intro e sq h
  induction h with
  | refl s => exact fun he => he
  | head s ch tgt hexp hmem hrest ih =>
    intro he
    exact ih (Reaches.step s ch he hexp hmem)

theorem reachesFrom_side_le {t : ℕ} {c : List (Circle ℚ)} :
    ∀ {e sq : Square}, ReachesFrom t c e sq → Reaches t c e →
      sq.side_length ≤ e.side_length := by
  intro e sq h
  induction h with
  | refl s => exact fun _ => le_refl _
  | head s ch tgt hexp hmem hrest ih =>
    intro hs
    have h1 : tgt.side_length ≤ ch.side_length := ih (Reaches.step s ch hs hexp hmem)
    have h2 : ch.side_length = s.side_length / 2 := subsquares_side hmem
    have h3 : 0 < s.side_length := reaches_side_pos hs
    linarith

theorem num_uncovered_of_outside {sq : Square}
    (h : num_outside_unit_circle sq = 4) (c : List (Circle ℚ)) :
    num_uncovered_corners c sq = 0 := by
  have hlen : (corners sq).length = 4 := by simp [corners]
  have hall : ∀ p ∈ corners sq,
      (!is_point_covered UNIT_CIRCLE p.1 p.2) = true := by
    rw [← List.countP_eq_length]
    unfold num_outside_unit_circle at h
    rw [h, hlen]
  unfold num_uncovered_corners
  rw [List.countP_eq_zero]
  intro p hp
  have hout := hall p hp
  simp only [Bool.not_eq_eq_eq_not, Bool.not_true] at hout
  simp [hout]

theorem not_qualifies_of_outside {t : ℕ} {c : List (Circle ℚ)} {sq : Square}
    (h : num_outside_unit_circle sq = 4) : ¬ qualifies t c sq := by
  simp [qualifies, num_uncovered_of_outside h c]

/-- Invariant of the BFS work queue: non-increasing side lengths, all side
lengths within a factor two of each other, every element reachable, and
every reachable qualifying square a descendant of some queue element. -/
structure QueueInv (t : ℕ) (c : List (Circle ℚ)) (q : List Square) : Prop where
  sorted : q.Pairwise fun a b => b.side_length ≤ a.side_length
  within : ∀ a ∈ q, ∀ b ∈ q, a.side_length ≤ 2 * b.side_length
  reach : ∀ a ∈ q, Reaches t c a
  complete : ∀ sq, Reaches t c sq → qualifies t c sq →
    ∃ e ∈ q, ReachesFrom t c e sq

theorem queueInv_tail {t : ℕ} {c : List (Circle ℚ)} {sq : Square}
    {rest : List Square} (inv : QueueInv t c (sq :: rest))
    (hnq : ¬ qualifies t c sq) (hnexp : ¬ expandable t c sq) :
    QueueInv t c rest where
  sorted := (List.pairwise_cons.mp inv.sorted).2
  within := fun a ha b hb =>
    inv.within a (List.mem_cons_of_mem sq ha) b (List.mem_cons_of_mem sq hb)
  reach := fun a ha => inv.reach a (List.mem_cons_of_mem sq ha)
  complete := fun s hs hq => by
    obtain ⟨e, he, hrf⟩ := inv.complete s hs hq
    rcases List.mem_cons.mp he with rfl | he'
    · cases hrf with
      | refl => exact absurd hq hnq
      | head _ ch tgt hexp hmem hrest => exact absurd hexp hnexp
    · exact ⟨e, he', hrf⟩

theorem queueInv_initial (t : ℕ) (c : List (Circle ℚ)) :
    QueueInv t c initial_queue where
  sorted := by norm_num [initial_queue, List.pairwise_cons]
  within := by
    intro a ha b hb
    simp only [initial_queue, List.mem_cons, List.not_mem_nil, or_false] at ha hb
    rcases ha with rfl | rfl | rfl | rfl <;> rcases hb with rfl | rfl | rfl | rfl <;>
      norm_num
  reach := fun a ha => Reaches.init a ha
  complete := fun s hs _ => reaches_ancestor hs

theorem queueInv_expand {t : ℕ} {c : List (Circle ℚ)} {sq : Square}
    {rest : List Square} (inv : QueueInv t c (sq :: rest))
    (h1 : ¬ num_outside_unit_circle sq = 4)
    (h2 : ¬ t < num_uncovered_corners c sq)
    (h3 : ¬ ((decide (num_uncovered_corners c sq = 0) &&
      c.any fun circle => is_fully_covered sq circle) = true))
    (h4 : ¬ sq.side_length / 2 < PRECISION.epsilon) :
    QueueInv t c (rest ++ subsquares sq) := by
  have hexp : expandable t c sq := ⟨h1, h2, h3, h4⟩
  have hreach_sq : Reaches t c sq := inv.reach sq (List.mem_cons_self sq rest)
  have hspos : 0 < sq.side_length := reaches_side_pos hreach_sq
  have hsorted := List.pairwise_cons.mp inv.sorted
  refine ⟨?_, ?_, ?_, ?_⟩
  · rw [List.pairwise_append]
    refine ⟨hsorted.2, ?_, ?_⟩
    · refine List.pairwise_of_forall_mem_list ?_
      intro a ha b hb
      rw [subsquares_side ha, subsquares_side hb]
    · intro a ha b hb
      have hb' := subsquares_side hb
      have ha2 := inv.within sq (List.mem_cons_self sq rest) a
        (List.mem_cons_of_mem sq ha)
      rw [hb']
      linarith
  · intro a ha b hb
    rcases List.mem_append.mp ha with ha' | ha' <;>
      rcases List.mem_append.mp hb with hb' | hb'
    · exact inv.within a (List.mem_cons_of_mem sq ha') b
        (List.mem_cons_of_mem sq hb')
    · have h6 := hsorted.1 a ha'
      rw [subsquares_side hb']
      linarith
    · have h6 := inv.within sq (List.mem_cons_self sq rest) b
        (List.mem_cons_of_mem sq hb')
      rw [subsquares_side ha']
      linarith
    · rw [subsquares_side ha', subsquares_side hb']
      linarith
  · intro a ha
    rcases List.mem_append.mp ha with ha' | ha'
    · exact inv.reach a (List.mem_cons_of_mem sq ha')
    · exact Reaches.step sq a hreach_sq hexp ha'
  · intro s hs hq
    obtain ⟨e, he, hrf⟩ := inv.complete s hs hq
    rcases List.mem_cons.mp he with rfl | he'
    · cases hrf with
      | refl => exact absurd hq h2
      | head _ ch tgt hexp2 hmem2 hrest =>
        exact ⟨ch, List.mem_append.mpr (Or.inr hmem2), hrest⟩
    · exact ⟨e, List.mem_append.mpr (Or.inl he'), hrf⟩

/-- The work-queue states the BFS loop passes through, one constructor per
branch of the loop body (`src/utils.py`, lines 273-305). -/
inductive QueueStates (t : ℕ) (c : List (Circle ℚ)) : List Square → Prop where
  | init : QueueStates t c initial_queue
  | skip_outside {sq : Square} {rest : List Square} :
      QueueStates t c (sq :: rest) → num_outside_unit_circle sq = 4 →
      QueueStates t c rest
  | skip_covered {sq : Square} {rest : List Square} :
      QueueStates t c (sq :: rest) → ¬ num_outside_unit_circle sq = 4 →
      ¬ t < num_uncovered_corners c sq →
      ((decide (num_uncovered_corners c sq = 0) &&
        c.any fun circle => is_fully_covered sq circle) = true) →
      QueueStates t c rest
  | skip_small {sq : Square} {rest : List Square} :
      QueueStates t c (sq :: rest) → ¬ num_outside_unit_circle sq = 4 →
      ¬ t < num_uncovered_corners c sq →
      ¬ ((decide (num_uncovered_corners c sq = 0) &&
        c.any fun circle => is_fully_covered sq circle) = true) →
      sq.side_length / 2 < PRECISION.epsilon →
      QueueStates t c rest
  | expand {sq : Square} {rest : List Square} :
      QueueStates t c (sq :: rest) → ¬ num_outside_unit_circle sq = 4 →
      ¬ t < num_uncovered_corners c sq →
      ¬ ((decide (num_uncovered_corners c sq = 0) &&
        c.any fun circle => is_fully_covered sq circle) = true) →
      ¬ sq.side_length / 2 < PRECISION.epsilon →
      QueueStates t c (rest ++ subsquares sq)

/-- One unfolding of the BFS on the empty queue. -/
theorem search_bfs_nil {t : ℕ} {c : List (Circle ℚ)} :
    search_bfs t c [] = none := by
  unfold search_bfs
  rfl

/-- Largest-first guarantee of the BFS loop: started on a queue satisfying
the invariant, a returned square qualifies and its side length bounds the
side length of every reachable qualifying square. -/
theorem search_bfs_largest {t : ℕ} {c : List (Circle ℚ)} :
    ∀ q, QueueInv t c q → ∀ res, search_bfs t c q = some res →
      qualifies t c res ∧
      ∀ sq, Reaches t c sq → qualifies t c sq →
        sq.side_length ≤ res.side_length := by
  intro q
  induction q using search_bfs.induct t c with
  | case1 =>
    intro _ res hres
    rw [search_bfs_nil] at hres
    exact absurd hres (by simp)
  | case2 sq rest h1 ih =>
    intro inv res hres
    rw [search_bfs_outside h1] at hres
    exact ih (queueInv_tail inv (not_qualifies_of_outside h1)
      (fun hexp => hexp.1 h1)) res hres
  | case3 sq rest h1 h2 =>
    intro inv res hres
    rw [search_bfs_found h1 h2] at hres
    obtain rfl : sq = res := by simpa using hres
    refine ⟨h2, ?_⟩
    intro s hs hq
    obtain ⟨e, he, hrf⟩ := inv.complete s hs hq
    have h5 : s.side_length ≤ e.side_length :=
      reachesFrom_side_le hrf (inv.reach e he)
    rcases List.mem_cons.mp he with rfl | he'
    · exact h5
    · have h6 : e.side_length ≤ sq.side_length :=
        (List.pairwise_cons.mp inv.sorted).1 e he'
      linarith
  | case4 sq rest h1 h2 h3 ih =>
    intro inv res hres
    rw [search_bfs_covered h1 h2 h3] at hres
    exact ih (queueInv_tail inv h2 (fun hexp => hexp.2.2.1 h3)) res hres
  | case5 sq rest h1 h2 h3 h4 ih =>
    intro inv res hres
    rw [search_bfs_small h1 h2 h3 h4] at hres
    exact ih (queueInv_tail inv h2 (fun hexp => hexp.2.2.2 h4)) res hres
  | case6 sq rest h1 h2 h3 h4 ih =>
    intro inv res hres
    rw [search_bfs_expand h1 h2 h3 h4] at hres
    exact ih (queueInv_expand inv h1 h2 h3 h4) res hres

theorem queueInv_states {t : ℕ} {c : List (Circle ℚ)} {q : List Square}
    (h : QueueStates t c q) : QueueInv t c q := by
  induction h with
  | init => exact queueInv_initial t c
  | skip_outside hq h1 ih =>
    exact queueInv_tail ih (not_qualifies_of_outside h1) (fun hexp => hexp.1 h1)
  | skip_covered hq h1 h2 h3 ih =>
    exact queueInv_tail ih h2 (fun hexp => hexp.2.2.1 h3)
  | skip_small hq h1 h2 h3 h4 ih =>
    exact queueInv_tail ih h2 (fun hexp => hexp.2.2.2 h4)
  | expand hq h1 h2 h3 h4 ih =>
    exact queueInv_expand ih h1 h2 h3 h4

/-! ### Concrete runs on the empty circle list -/

/-- The quadtree checker rejects the empty circle list: the very first
quadrant square already has an uncovered corner. -/
theorem covers_unit_circle_empty : covers_unit_circle [] = false := by
  unfold covers_unit_circle
  simp only [List.all_cons, List.all_nil]
  rw [is_square_covered_uncovered
    (by norm_num [num_outside_unit_circle, corners, is_point_covered,
      UNIT_CIRCLE, List.countP_cons, List.countP_nil])
    (by norm_num [corners, is_point_covered, is_point_covered_by_any,
      UNIT_CIRCLE, List.any_cons, List.any_nil])]
  simp

/-- Full run of the BFS on the empty circle list: the four top-level
quadrants and the first three children of the first quadrant are expanded
(each has a corner outside the unit circle, hence at most three uncovered
corners), and the fourth child `(-1/2, -1/2)` of side `1/2` is the first
dequeued square with all four corners uncovered. -/
theorem get_biggest_uncovered_square_empty :
    get_biggest_uncovered_square [] = some ⟨-1/2, -1/2, 1/2⟩ := by
  unfold get_biggest_uncovered_square initial_queue
  rw [search_bfs_expand
    (by norm_num [num_outside_unit_circle, corners, is_point_covered,
      UNIT_CIRCLE, List.countP_cons, List.countP_nil])
    (by norm_num [num_uncovered_corners, corners, is_point_covered,
      is_point_covered_by_any, UNIT_CIRCLE, List.countP_cons, List.countP_nil,
      List.any_nil])
    (by norm_num [num_uncovered_corners, corners, is_point_covered,
      is_point_covered_by_any, UNIT_CIRCLE, List.countP_cons, List.countP_nil,
      List.any_nil])
    (by norm_num [PRECISION])]
  simp only [subsquares, List.cons_append, List.nil_append]
  rw [search_bfs_expand
    (by norm_num [num_outside_unit_circle, corners, is_point_covered,
      UNIT_CIRCLE, List.countP_cons, List.countP_nil])
    (by norm_num [num_uncovered_corners, corners, is_point_covered,
      is_point_covered_by_any, UNIT_CIRCLE, List.countP_cons, List.countP_nil,
      List.any_nil])
    (by norm_num [num_uncovered_corners, corners, is_point_covered,
      is_point_covered_by_any, UNIT_CIRCLE, List.countP_cons, List.countP_nil,
      List.any_nil])
    (by norm_num [PRECISION])]
  simp only [subsquares, List.cons_append, List.nil_append]
  rw [search_bfs_expand
    (by norm_num [num_outside_unit_circle, corners, is_point_covered,
      UNIT_CIRCLE, List.countP_cons, List.countP_nil])
    (by norm_num [num_uncovered_corners, corners, is_point_covered,
      is_point_covered_by_any, UNIT_CIRCLE, List.countP_cons, List.countP_nil,
      List.any_nil])
    (by norm_num [num_uncovered_corners, corners, is_point_covered,
      is_point_covered_by_any, UNIT_CIRCLE, List.countP_cons, List.countP_nil,
      List.any_nil])
    (by norm_num [PRECISION])]
  simp only [subsquares, List.cons_append, List.nil_append]
  rw [search_bfs_expand
    (by norm_num [num_outside_unit_circle, corners, is_point_covered,
      UNIT_CIRCLE, List.countP_cons, List.countP_nil])
    (by norm_num [num_uncovered_corners, corners, is_point_covered,
      is_point_covered_by_any, UNIT_CIRCLE, List.countP_cons, List.countP_nil,
      List.any_nil])
    (by norm_num [num_uncovered_corners, corners, is_point_covered,
      is_point_covered_by_any, UNIT_CIRCLE, List.countP_cons, List.countP_nil,
      List.any_nil])
    (by norm_num [PRECISION])]
  simp only [subsquares, List.cons_append, List.nil_append]
  rw [search_bfs_expand
    (by norm_num [num_outside_unit_circle, corners, is_point_covered,
      UNIT_CIRCLE, List.countP_cons, List.countP_nil])
    (by norm_num [num_uncovered_corners, corners, is_point_covered,
      is_point_covered_by_any, UNIT_CIRCLE, List.countP_cons, List.countP_nil,
      List.any_nil])
    (by norm_num [num_uncovered_corners, corners, is_point_covered,
      is_point_covered_by_any, UNIT_CIRCLE, List.countP_cons, List.countP_nil,
      List.any_nil])
    (by norm_num [PRECISION])]
  simp only [subsquares, List.cons_append, List.nil_append]
  rw [search_bfs_expand
    (by norm_num [num_outside_unit_circle, corners, is_point_covered,
      UNIT_CIRCLE, List.countP_cons, List.countP_nil])
    (by norm_num [num_uncovered_corners, corners, is_point_covered,
      is_point_covered_by_any, UNIT_CIRCLE, List.countP_cons, List.countP_nil,
      List.any_nil])
    (by norm_num [num_uncovered_corners, corners, is_point_covered,
      is_point_covered_by_any, UNIT_CIRCLE, List.countP_cons, List.countP_nil,
      List.any_nil])
    (by norm_num [PRECISION])]
  simp only [subsquares, List.cons_append, List.nil_append]
  rw [search_bfs_expand
    (by norm_num [num_outside_unit_circle, corners, is_point_covered,
      UNIT_CIRCLE, List.countP_cons, List.countP_nil])
    (by norm_num [num_uncovered_corners, corners, is_point_covered,
      is_point_covered_by_any, UNIT_CIRCLE, List.countP_cons, List.countP_nil,
      List.any_nil])
    (by norm_num [num_uncovered_corners, corners, is_point_covered,
      is_point_covered_by_any, UNIT_CIRCLE, List.countP_cons, List.countP_nil,
      List.any_nil])
    (by norm_num [PRECISION])]
  simp only [subsquares, List.cons_append, List.nil_append]
  rw [search_bfs_found
    (by norm_num [num_outside_unit_circle, corners, is_point_covered,
      UNIT_CIRCLE, List.countP_cons, List.countP_nil])
    (by norm_num [num_uncovered_corners, corners, is_point_covered,
      is_point_covered_by_any, UNIT_CIRCLE, List.countP_cons, List.countP_nil,
      List.any_nil])]
  norm_num

/-! ### Scanline checker (`ℝ` layer: it computes square roots) -/

/-- `get_horizontal_line` (`src/utils.py`, lines 133-139): the chord a
circle cuts at height `y`, `None` if the circle does not reach `y`.
`** 0.5` on the guarded non-negative argument is `Real.sqrt`. -/
noncomputable def get_horizontal_line (circle : Circle ℝ) (y : ℝ) :
    Option (HorizontalLine ℝ) :=
  if |y - circle.y| > circle.r then none
  else
    some ⟨circle.x - Real.sqrt (circle.r ^ 2 - (y - circle.y) ^ 2),
          circle.x + Real.sqrt (circle.r ^ 2 - (y - circle.y) ^ 2)⟩

/-- `do_circles_cover_unit_circle` (`src/utils.py`, lines 163-172): merge
the chords of all circles at height `y` and test whether one merged chord
contains the unit disk's chord.  The list comprehension dropping `None`
chords is `filterMap`. -/
noncomputable def do_circles_cover_unit_circle (circles : List (Circle ℝ))
    (y : ℝ) : Bool :=
  let lines := circles.filterMap fun circle => get_horizontal_line circle y
  let union := get_line_union lines
  match get_horizontal_line UNIT_CIRCLE_R y with
  | none => true
  | some unit_circle_line =>
    union.any fun union_line =>
      decide (union_line.start ≤ unit_circle_line.start) &&
      decide (union_line.stop ≥ unit_circle_line.stop)

/-- The `while y < 1` sweep of `covers_unit_circle_2` (`src/utils.py`,
lines 175-181), stepping `y` by `PRECISION.epsilon`. -/
noncomputable def covers_unit_circle_2_loop (circles : List (Circle ℝ))
    (y : ℝ) : Bool :=
  if _h : y < 1 then
    if do_circles_cover_unit_circle circles y = false then false
    else covers_unit_circle_2_loop circles (y + (PRECISION.epsilon : ℝ))
  else true
termination_by ⌈(1 - y) * 1000⌉.toNat
decreasing_by
  have hx : (0 : ℝ) < (1 - y) * 1000 := by
    have h1 : (0 : ℝ) < 1 - y := by linarith
    linarith
  have heq : (1 - (y + ((PRECISION.epsilon : ℚ) : ℝ))) * 1000 = (1 - y) * 1000 - 1 := by
    rw [show ((PRECISION.epsilon : ℚ) : ℝ) = 1 / 1000 by norm_num [PRECISION]]
    ring
  rw [heq, Int.ceil_sub_one]
  have h2 : 0 < ⌈(1 - y) * 1000⌉ := Int.ceil_pos.mpr hx
  omega

/-- `covers_unit_circle_2` (`src/utils.py`, lines 174-181): sweep from
`y = -1.0`. -/
noncomputable def covers_unit_circle_2 (circles : List (Circle ℝ)) : Bool :=
  covers_unit_circle_2_loop circles (-1)

/-! ### Analytic (polygon-boolean) checker -/

/-- `covers_unit_circle_3` (`src/utils.py`, lines 393-397): cover iff the
area of the unit-disk polygon minus the union of the candidate polygons is
below epsilon.  `shapely`'s `.area` is the Lebesgue measure of the model
point sets. -/
noncomputable def covers_unit_circle_3 (circles : List (Circle ℝ)) : Prop :=
  (MeasureTheory.volume (PRECISION.unit_circle_polygon \
    ⋃ circle ∈ circles, get_circle_polygon circle)).toReal
    < ((PRECISION.epsilon : ℚ) : ℝ)

/-! ### Distance-traveled cost evaluator -/

/-- The `for circle in circles` loop of `get_distance_traveled`
(`src/utils.py`, lines 409-431), carrying `distance`, `current_point` and
`max_ct`.  `first`/`last` are `circles[0]` and `circles[-1]` of the whole
list; the Python `circle == circles[-1]` shortcut compares by value.  The
division `distance / (1 - r)` raises `ZeroDivisionError` in Python when
`r = 1`; the model returns `none` there. -/
noncomputable def get_distance_traveled_go (first last : Circle ℝ) :
    List (Circle ℝ) → ℝ → ℝ × ℝ → ℝ → Option ℝ
  | [], _, _, max_ct => some max_ct
  | circle :: rest, distance, current_point, max_ct =>
    let d0 : ℝ := Real.sqrt ((circle.x - current_point.1) ^ 2 +
      (circle.y - current_point.2) ^ 2)
    let d1 : ℝ :=
      if circle = last then
        d0 - 2 * Real.sqrt (first.x ^ 2 + first.y ^ 2) * circle.r
      else d0
    if 1 - circle.r = 0 then none
    else
      get_distance_traveled_go first last rest (distance + d1)
        (circle.x, circle.y) (max max_ct ((distance + d1) / (1 - circle.r)))

/-- `get_distance_traveled` (`src/utils.py`, lines 399-433): `some` of the
maximal ratio `accumulated distance / (1 - r_k)`, or `none` where the
Python code raises `ZeroDivisionError` (some `r_k = 1`). -/
noncomputable def get_distance_traveled (circles : List (Circle ℝ)) : Option ℝ :=
  match circles with
  | [] => some 0
  | c0 :: rest =>
    get_distance_traveled_go c0 ((c0 :: rest).getLast (by simp))
      (c0 :: rest) 0 (0, 0) 0

/-! ### Pairwise circle intersections and rotation -/

/-- `get_intersections` (`src/utils.py`, lines 444-475): the two
intersection points of two circles, or `None` for separated, nested or
coincident circles. -/
noncomputable def get_intersections (circle1 circle2 : Circle ℝ) :
    Option ((ℝ × ℝ) × (ℝ × ℝ)) :=
  let d : ℝ := Real.sqrt ((circle2.x - circle1.x) ^ 2 + (circle2.y - circle1.y) ^ 2)
  if d > circle1.r + circle2.r then none
  else if d < |circle1.r - circle2.r| then none
  else if d = 0 ∧ circle1.r = circle2.r then none
  else
    let a : ℝ := (circle1.r ^ 2 - circle2.r ^ 2 + d ^ 2) / (2 * d)
    let h : ℝ := Real.sqrt (circle1.r ^ 2 - a ^ 2)
    let x2 : ℝ := circle1.x + a * (circle2.x - circle1.x) / d
    let y2 : ℝ := circle1.y + a * (circle2.y - circle1.y) / d
    some ((x2 + h * (circle2.y - circle1.y) / d, y2 - h * (circle2.x - circle1.x) / d),
          (x2 - h * (circle2.y - circle1.y) / d, y2 + h * (circle2.x - circle1.x) / d))

/-- Python's `math.atan2(y, x)`: the argument of the complex number
`x + i y`, in `(-π, π]`. -/
noncomputable def atan2 (y x : ℝ) : ℝ := Complex.arg ⟨x, y⟩

/-- `rotate_circles` (`src/utils.py`, lines 477-501): rotate all circles so
that the first circle's upper intersection point with the unit circle moves
to the positive x-axis (the code also reflects across the x-axis: it
appends `Circle(new_x, -new_y, r)`).  Python's `circles[0]` raises
`IndexError` on an empty list, modelled as `none`.  `max(points,
key=...)` returns the first point on ties. -/
noncomputable def rotate_circles (circles : List (Circle ℝ)) :
    Option (List (Circle ℝ)) :=
  match circles with
  | [] => none
  | first :: rest =>
    match get_intersections first UNIT_CIRCLE_R with
    | none => some (first :: rest)
    | some (p1, p2) =>
      let p : ℝ × ℝ := if p2.2 ≤ p1.2 then p1 else p2
      let angle : ℝ := atan2 p.2 p.1
      some ((first :: rest).map fun circle =>
        ⟨circle.x * Real.cos angle - circle.y * Real.sin angle,
         -(circle.x * Real.sin angle + circle.y * Real.cos angle), circle.r⟩)

/-! ### Binary search -/

/-- Halving the bracket decreases the termination measure of the binary
search. -/
theorem binary_search_measure {start endp : ℚ}
    (h : endp - start > PRECISION.epsilon) :
    ⌈(endp - start) / 2 * 1000⌉.toNat < ⌈(endp - start) * 1000⌉.toNat := by
  have h1 : (1 : ℚ) < (endp - start) * 1000 := by
    have h2 : (1 / 1000 : ℚ) < endp - start := h
    linarith
  have h3 : (endp - start) / 2 * 1000 = (endp - start) * 1000 / 2 := by ring
  rw [h3]
  exact ceil_half_toNat_lt h1

/-- The update test `smallest_success is None or p < smallest_success`
(`src/utils.py`, line 376). -/
def is_new_min (ss : Option ℚ) (p : ℚ) : Bool :=
  match ss with
  | none => true
  | some s => decide (p < s)

/-- The update test `largest_failure is None or p > largest_failure`
(`src/utils.py`, line 383). -/
def is_new_max (lf : Option ℚ) (p : ℚ) : Bool :=
  match lf with
  | none => true
  | some f => decide (f < p)

/-- The `while end - start > PRECISION.epsilon` loop of `binary_search`
(`src/utils.py`, lines 369-391), carrying the running bracket and the
`largest_failure` / `smallest_success` / `smallest_success_circles`
accumulators.  `raise ValueError('No solution found')` is the `.error`
value. -/
def binary_search_loop (evaluator : ℚ → Bool × List (Circle ℚ)) :
    ℚ → ℚ → Option ℚ → Option ℚ → Option (List (Circle ℚ)) →
    Except String (ℚ × List (Circle ℚ))
  | start, endp, largest_failure, smallest_success, smallest_success_circles =>
    if _h : endp - start > PRECISION.epsilon then
      if (evaluator ((start + endp) / 2)).1 then
        binary_search_loop evaluator start ((start + endp) / 2) largest_failure
          (if is_new_min smallest_success ((start + endp) / 2) then
            some ((start + endp) / 2) else smallest_success)
          (if is_new_min smallest_success ((start + endp) / 2) then
            some (evaluator ((start + endp) / 2)).2 else smallest_success_circles)
      else
        binary_search_loop evaluator ((start + endp) / 2) endp
          (if is_new_max largest_failure ((start + endp) / 2) then
            some ((start + endp) / 2) else largest_failure)
          smallest_success smallest_success_circles
    else
      match smallest_success, smallest_success_circles with
      | some s, some c => .ok (s, c)
      | _, _ => .error "No solution found"
termination_by start endp _ _ _ => ⌈(endp - start) * 1000⌉.toNat
decreasing_by
  · have heq : (start + endp) / 2 - start = (endp - start) / 2 := by ring
    rw [heq]
    exact binary_search_measure _h
  · have heq : endp - (start + endp) / 2 = (endp - start) / 2 := by ring
    rw [heq]
    exact binary_search_measure _h

/-- `binary_search` (`src/utils.py`, lines 356-391). -/
def binary_search (start endp : ℚ)
    (evaluator : ℚ → Bool × List (Circle ℚ)) :
    Except String (ℚ × List (Circle ℚ)) :=
  binary_search_loop evaluator start endp none none none

/-- The sequence of `(parameter, success flag, circles)` triples the binary
search evaluates, in evaluation order: same recursion structure as
`binary_search_loop`, recording each `evaluator(p)` call. -/
def binary_search_trace (evaluator : ℚ → Bool × List (Circle ℚ)) :
    ℚ → ℚ → List (ℚ × Bool × List (Circle ℚ))
  | start, endp =>
    if _h : endp - start > PRECISION.epsilon then
      ((start + endp) / 2, (evaluator ((start + endp) / 2)).1,
        (evaluator ((start + endp) / 2)).2) ::
        (if (evaluator ((start + endp) / 2)).1 then
          binary_search_trace evaluator start ((start + endp) / 2)
        else binary_search_trace evaluator ((start + endp) / 2) endp)
    else []
termination_by start endp => ⌈(endp - start) * 1000⌉.toNat
decreasing_by
  · have heq : (start + endp) / 2 - start = (endp - start) / 2 := by ring
    rw [heq]
    exact binary_search_measure _h
  · have heq : endp - (start + endp) / 2 = (endp - start) / 2 := by ring
    rw [heq]
    exact binary_search_measure _h

/-! ### Binary-search step lemmas and specification -/

set_option maxHeartbeats 1600000 in
/-- Loop step on a successful probe: shrink the bracket to the left half
and update the success accumulators. -/
theorem binary_search_loop_success {evaluator : ℚ → Bool × List (Circle ℚ)}
    {start endp : ℚ} {lf ss : Option ℚ} {ssc : Option (List (Circle ℚ))}
    (h : endp - start > PRECISION.epsilon)
    (hs : (evaluator ((start + endp) / 2)).1 = true) :
    binary_search_loop evaluator start endp lf ss ssc =
      binary_search_loop evaluator start ((start + endp) / 2) lf
        (if is_new_min ss ((start + endp) / 2) then
          some ((start + endp) / 2) else ss)
        (if is_new_min ss ((start + endp) / 2) then
          some (evaluator ((start + endp) / 2)).2 else ssc) := by
  conv_lhs => unfold binary_search_loop
  rw [dif_pos h, if_pos hs]

set_option maxHeartbeats 1600000 in
/-- Loop step on a failed probe: shrink the bracket to the right half. -/
theorem binary_search_loop_failure {evaluator : ℚ → Bool × List (Circle ℚ)}
    {start endp : ℚ} {lf ss : Option ℚ} {ssc : Option (List (Circle ℚ))}
    (h : endp - start > PRECISION.epsilon)
    (hs : ¬ (evaluator ((start + endp) / 2)).1 = true) :
    binary_search_loop evaluator start endp lf ss ssc =
      binary_search_loop evaluator ((start + endp) / 2) endp
        (if is_new_max lf ((start + endp) / 2) then
          some ((start + endp) / 2) else lf)
        ss ssc := by
  conv_lhs => unfold binary_search_loop
  rw [dif_pos h, if_neg hs]

set_option maxHeartbeats 1600000 in
/-- Loop exit with a recorded success: return it. -/
theorem binary_search_loop_stop_ok {evaluator : ℚ → Bool × List (Circle ℚ)}
    {start endp : ℚ} {lf : Option ℚ} {s : ℚ} {c : List (Circle ℚ)}
    (h : ¬ endp - start > PRECISION.epsilon) :
    binary_search_loop evaluator start endp lf (some s) (some c) = .ok (s, c) := by
  conv_lhs => unfold binary_search_loop
  rw [dif_neg h]

set_option maxHeartbeats 1600000 in
/-- Loop exit without a recorded success: `ValueError`. -/
theorem binary_search_loop_stop_error {evaluator : ℚ → Bool × List (Circle ℚ)}
    {start endp : ℚ} {lf ss : Option ℚ} {ssc : Option (List (Circle ℚ))}
    (h : ¬ endp - start > PRECISION.epsilon)
    (hnone : ss = none ∨ ssc = none) :
    binary_search_loop evaluator start endp lf ss ssc =
      .error "No solution found" := by
  conv_lhs => unfold binary_search_loop
  rw [dif_neg h]
  rcases hnone with rfl | rfl
  · rfl
  · cases ss <;> rfl

set_option maxHeartbeats 1600000 in
/-- Trace step while the bracket is wide. -/
theorem binary_search_trace_cons {evaluator : ℚ → Bool × List (Circle ℚ)}
    {start endp : ℚ} (h : endp - start > PRECISION.epsilon) :
    binary_search_trace evaluator start endp =
      ((start + endp) / 2, (evaluator ((start + endp) / 2)).1,
        (evaluator ((start + endp) / 2)).2) ::
        (if (evaluator ((start + endp) / 2)).1 then
          binary_search_trace evaluator start ((start + endp) / 2)
        else binary_search_trace evaluator ((start + endp) / 2) endp) := by
  conv_lhs => unfold binary_search_trace
  rw [dif_pos h]

set_option maxHeartbeats 1600000 in
/-- Trace exit. -/
theorem binary_search_trace_nil {evaluator : ℚ → Bool × List (Circle ℚ)}
    {start endp : ℚ} (h : ¬ endp - start > PRECISION.epsilon) :
    binary_search_trace evaluator start endp = [] := by
  conv_lhs => unfold binary_search_trace
  rw [dif_neg h]

/-- Each recorded triple is the evaluator's output at its parameter. -/
theorem binary_search_trace_entries {evaluator : ℚ → Bool × List (Circle ℚ)} :
    ∀ start endp : ℚ, ∀ e ∈ binary_search_trace evaluator start endp,
      e.2.1 = (evaluator e.1).1 ∧ e.2.2 = (evaluator e.1).2 := by
  intro start endp
  induction start, endp using binary_search_trace.induct evaluator with
  | case1 start endp h ih1 ih2 =>
    rw [binary_search_trace_cons h]
    intro e he
    rcases List.mem_cons.mp he with rfl | he'
    · exact ⟨rfl, rfl⟩
    · rcases hb : (evaluator ((start + endp) / 2)).1 with _ | _
      · rw [if_neg (by simp [hb])] at he'
        exact ih2 e he'
      · rw [if_pos hb] at he'
        exact ih1 e he'
  | case2 start endp h =>
    rw [binary_search_trace_nil h]
    intro e he
    cases he

/-- The error characterisation of the loop: with consistent accumulators,
the loop errors iff no success is recorded so far nor in the remaining
trace. -/
theorem binary_search_loop_error_iff {evaluator : ℚ → Bool × List (Circle ℚ)} :
    ∀ start endp : ℚ, ∀ (lf ss : Option ℚ) (ssc : Option (List (Circle ℚ))),
      (ss = none ↔ ssc = none) →
      ((∃ msg, binary_search_loop evaluator start endp lf ss ssc = .error msg) ↔
        (ss = none ∧
          ∀ e ∈ binary_search_trace evaluator start endp, e.2.1 = false)) := by
  intro start endp
  induction start, endp using binary_search_trace.induct evaluator with
  | case1 start endp h ih1 ih2 =>
    intro lf ss ssc hcons
    rw [binary_search_trace_cons h]
    rcases hb : (evaluator ((start + endp) / 2)).1 with _ | _
    · rw [binary_search_loop_failure h (by simp [hb])]
      simp only [Bool.false_eq_true, if_false]
      rw [ih2 _ ss ssc hcons]
      constructor
      · rintro ⟨h1, h2⟩
        refine ⟨h1, ?_⟩
        intro e he
        rcases List.mem_cons.mp he with rfl | he'
        · rfl
        · exact h2 e he'
      · rintro ⟨h1, h2⟩
        exact ⟨h1, fun e he => h2 e (List.mem_cons_of_mem _ he)⟩
    · rw [binary_search_loop_success h hb]
      simp only [if_true]
      have hss' : (if is_new_min ss ((start + endp) / 2) then
          some ((start + endp) / 2) else ss) ≠ none := by
        cases ss with
        | none => simp [is_new_min]
        | some s => split <;> simp
      have hcons' : ((if is_new_min ss ((start + endp) / 2) then
            some ((start + endp) / 2) else ss) = none ↔
          (if is_new_min ss ((start + endp) / 2) then
            some (evaluator ((start + endp) / 2)).2 else ssc) = none) := by
        cases ss with
        | none => simp [is_new_min]
        | some s =>
          have hssc : ssc ≠ none := fun hn => by simpa using hcons.mpr hn
          split <;> simp [hssc]
      rw [ih1 _ _ _ hcons']
      constructor
      · rintro ⟨h1, _⟩
        exact absurd h1 hss'
      · rintro ⟨h1, h2⟩
        have := h2 _ (List.mem_cons_self _ _)
        simp [hb] at this
  | case2 start endp h =>
    intro lf ss ssc hcons
    rw [binary_search_trace_nil h]
    cases ss with
    | none =>
      rw [binary_search_loop_stop_error h (Or.inl rfl)]
      simp
    | some s =>
      cases ssc with
      | none => exact absurd (hcons.mpr rfl) (by simp)
      | some c =>
        rw [binary_search_loop_stop_ok h]
        simp

/-- The success characterisation of the loop: with consistent
accumulators, a normal return yields the smallest evaluated success (or
the accumulator, when it is smaller than every remaining success). -/
theorem binary_search_loop_ok {evaluator : ℚ → Bool × List (Circle ℚ)} :
    ∀ start endp : ℚ, ∀ (lf ss : Option ℚ) (ssc : Option (List (Circle ℚ))),
      (∀ s, ss = some s → (evaluator s).1 = true ∧ ssc = some (evaluator s).2) →
      ∀ p cs, binary_search_loop evaluator start endp lf ss ssc = .ok (p, cs) →
        (((p, true, cs) ∈ binary_search_trace evaluator start endp) ∨
          (ss = some p ∧ ssc = some cs)) ∧
        (∀ e ∈ binary_search_trace evaluator start endp,
          e.2.1 = true → p ≤ e.1) ∧
        (∀ s, ss = some s → p ≤ s) := by
  intro start endp
  induction start, endp using binary_search_trace.induct evaluator with
  | case1 start endp h ih1 ih2 =>
    intro lf ss ssc hcons p cs hok
    rw [binary_search_trace_cons h]
    rcases hb : (evaluator ((start + endp) / 2)).1 with _ | _
    · rw [binary_search_loop_failure h (by simp [hb])] at hok
      obtain ⟨hmem, htr, hacc⟩ := ih2 _ ss ssc hcons p cs hok
      simp only [Bool.false_eq_true, if_false]
      refine ⟨?_, ?_, hacc⟩
      · rcases hmem with hmem | hmem
        · exact Or.inl (List.mem_cons_of_mem _ hmem)
        · exact Or.inr hmem
      · intro e he hflag
        rcases List.mem_cons.mp he with rfl | he'
        · simp at hflag
        · exact htr e he' hflag
    · rw [binary_search_loop_success h hb] at hok
      have hcons' : ∀ s, (if is_new_min ss ((start + endp) / 2) then
            some ((start + endp) / 2) else ss) = some s →
          (evaluator s).1 = true ∧
          (if is_new_min ss ((start + endp) / 2) then
            some (evaluator ((start + endp) / 2)).2 else ssc) = some (evaluator s).2 := by
        intro s hs
        by_cases hupd : is_new_min ss ((start + endp) / 2) = true
        · rw [if_pos hupd] at hs
          obtain rfl : (start + endp) / 2 = s := by simpa using hs
          rw [if_pos hupd]
          exact ⟨hb, rfl⟩
        · rw [if_neg hupd] at hs
          rw [if_neg hupd]
          exact hcons s hs
      obtain ⟨hmem, htr, hacc⟩ := ih1 _ _ _ hcons' p cs hok
      simp only [if_true]
      have hple : p ≤ (start + endp) / 2 := by
        by_cases hupd : is_new_min ss ((start + endp) / 2) = true
        · exact hacc _ (by rw [if_pos hupd])
        · cases ss with
          | none => exact absurd (by simp [is_new_min]) hupd
          | some s0 =>
            have h1 : p ≤ s0 := hacc s0 (by rw [if_neg hupd])
            have h2 : ¬ (start + endp) / 2 < s0 := by
              simpa [is_new_min] using hupd
            linarith
      refine ⟨?_, ?_, ?_⟩
      · rcases hmem with hmem | hmem
        · exact Or.inl (List.mem_cons_of_mem _ hmem)
        · by_cases hupd : is_new_min ss ((start + endp) / 2) = true
          · simp only [if_pos hupd] at hmem
            obtain ⟨h1, h2⟩ := hmem
            obtain rfl : (start + endp) / 2 = p := by simpa using h1
            obtain rfl : (evaluator ((start + endp) / 2)).2 = cs := by simpa using h2
            exact Or.inl (List.mem_cons_self _ _)
          · simp only [if_neg hupd] at hmem
            exact Or.inr hmem
      · intro e he hflag
        rcases List.mem_cons.mp he with rfl | he'
        · exact hple
        · exact htr e he' hflag
      · intro s hs
        by_cases hupd : is_new_min ss ((start + endp) / 2) = true
        · cases ss with
          | none => cases hs
          | some s0 =>
            obtain rfl : s0 = s := by simpa using hs
            have h2 : (start + endp) / 2 < s0 := by
              simpa [is_new_min] using hupd
            linarith [hple]
        · exact hacc s (by rw [if_neg hupd]; exact hs)
  | case2 start endp h =>
    intro lf ss ssc hcons p cs hok
    rw [binary_search_trace_nil h]
    cases ss with
    | none =>
      rw [binary_search_loop_stop_error h (Or.inl rfl)] at hok
      cases hok
    | some s =>
      cases ssc with
      | none =>
        rw [binary_search_loop_stop_error h (Or.inr rfl)] at hok
        cases hok
      | some c =>
        rw [binary_search_loop_stop_ok h] at hok
        obtain ⟨rfl, rfl⟩ : s = p ∧ c = cs := by
          simpa using hok
        exact ⟨Or.inr ⟨rfl, rfl⟩, by simp, fun s0 hs0 => by simp_all⟩

/-- A trivial evaluator that always succeeds with an empty configuration:
used to witness the binary-search specification on a concrete run. -/
def const_true_evaluator : ℚ → Bool × List (Circle ℚ) := fun _ => (true, [])

/-- Concrete run: on the bracket `[0, 1/500]` with an always-succeeding
evaluator, the loop probes `p = 1/1000`, records the success, and stops. -/
theorem binary_search_run_example :
    binary_search 0 (1 / 500) const_true_evaluator = .ok (1 / 1000, []) := by
  unfold binary_search
  rw [binary_search_loop_success (by norm_num [PRECISION]) rfl]
  simp only [const_true_evaluator, is_new_min, if_true]
  rw [show ((0 : ℚ) + 1 / 500) / 2 = 1 / 1000 by norm_num]
  rw [binary_search_loop_stop_ok (by norm_num [PRECISION])]

/-! ### Support lemmas for the claims -/

/-- The precision invariant: epsilon is the derived value
`1 / 10 ^ (precision // 2)`. -/
def precision_inv (s : Precision) : Prop :=
  s.epsilon = 1 / (10 : ℚ) ^ (Int.fdiv s.precision 2)

theorem precision_inv_PRECISION : precision_inv PRECISION := by
  unfold precision_inv PRECISION
  norm_num [show Int.fdiv 7 2 = 3 from rfl]

theorem set_precision_preserves (s : Precision) (p : ℤ)
    (h : precision_inv s) : precision_inv (set_precision s p) := by
  unfold precision_inv set_precision
  split
  · exact h
  · rfl

theorem precision_inv_fold (ps : List ℤ) :
    ∀ s, precision_inv s → precision_inv (ps.foldl set_precision s) := by
  induction ps with
  | nil => exact fun s h => h
  | cons p ps ih => exact fun s h => ih _ (set_precision_preserves s p h)

theorem set_precision_epsilon_le {s : Precision} {p : ℤ}
    (h : precision_inv s) (hlt : s.precision < p) :
    (set_precision s p).epsilon ≤ s.epsilon := by
  unfold set_precision
  rw [if_neg (by omega : ¬ p = s.precision)]
  show 1 / (10 : ℚ) ^ (Int.fdiv p 2) ≤ s.epsilon
  rw [h]
  have hf : Int.fdiv s.precision 2 ≤ Int.fdiv p 2 := by
    rw [Int.fdiv_eq_ediv _ (by norm_num), Int.fdiv_eq_ediv _ (by norm_num)]
    exact Int.ediv_le_ediv (by norm_num) hlt.le
  have hzp : (10 : ℚ) ^ (Int.fdiv s.precision 2) ≤ (10 : ℚ) ^ (Int.fdiv p 2) :=
    zpow_le_zpow_right₀ (by norm_num) hf
  have hpos : (0 : ℚ) < 10 ^ (Int.fdiv s.precision 2) := by positivity
  exact one_div_le_one_div_of_le hpos hzp

theorem chain_interval_pairwise :
    ∀ lines : List (HorizontalLine ℚ),
      List.Chain' (fun a b => a.stop < b.start) lines →
      (∀ l ∈ lines, l.start ≤ l.stop) →
      List.Pairwise (fun a b => a.stop < b.start) lines := by
  intro lines
  induction lines with
  | nil => simp
  | cons a rest ih =>
    intro hchain hwf
    rw [List.chain'_cons'] at hchain
    obtain ⟨hhead, htail⟩ := hchain
    have hpw := ih htail (fun l hl => hwf l (List.mem_cons_of_mem a hl))
    rw [List.pairwise_cons]
    refine ⟨?_, hpw⟩
    intro b hb
    cases rest with
    | nil => cases hb
    | cons r rs =>
      have har : a.stop < r.start := hhead r rfl
      rcases List.mem_cons.mp hb with rfl | hb'
      · exact har
      · have h1 : r.stop < b.start := (List.pairwise_cons.mp hpw).1 b hb'
        have h2 : r.start ≤ r.stop := hwf r (by simp)
        linarith

theorem get_line_union_go_disjoint :
    ∀ (rest : List (HorizontalLine ℚ)) (current : HorizontalLine ℚ),
      List.Pairwise (fun a b => a.stop < b.start) (current :: rest) →
      get_line_union_go current rest = current :: rest := by
  intro rest
  induction rest with
  | nil => intro current _; rfl
  | cons b bs ih =>
    intro current hpw
    have hcb : current.stop < b.start :=
      (List.pairwise_cons.mp hpw).1 b (List.mem_cons_self b bs)
    unfold get_line_union_go
    rw [if_neg (by linarith : ¬ b.start ≤ current.stop)]
    rw [ih b (List.pairwise_cons.mp hpw).2]

/-! ### Claim theorems -/

/-- **C7**: after any sequence of `set_precision` calls starting from the
default `PRECISION` state, `epsilon = 10 ^ -(precision // 2)` (floor
division); and a call with a strictly larger precision value never
increases `epsilon`. -/
theorem set_precision_epsilon_invariant :
    ∀ ps : List ℤ,
      (ps.foldl set_precision PRECISION).epsilon =
        1 / (10 : ℚ) ^ (Int.fdiv (ps.foldl set_precision PRECISION).precision 2) ∧
      ∀ p : ℤ, (ps.foldl set_precision PRECISION).precision < p →
        (set_precision (ps.foldl set_precision PRECISION) p).epsilon ≤
          (ps.foldl set_precision PRECISION).epsilon := by
  intro ps
  have hinv := precision_inv_fold ps PRECISION precision_inv_PRECISION
  exact ⟨hinv, fun p hp => set_precision_epsilon_le hinv hp⟩

/-- Witness for C7: the call sequence `[9]` followed by `set_precision 11`
does not increase epsilon. -/
theorem set_precision_epsilon_invariant_witness :
    (set_precision ([(9 : ℤ)].foldl set_precision PRECISION) 11).epsilon ≤
      ([(9 : ℤ)].foldl set_precision PRECISION).epsilon :=
  (set_precision_epsilon_invariant [9]).2 11
    (by norm_num [set_precision, PRECISION])

/-- **C8**: `get_line_union` merges `[(0,2),(1,3),(5,6)]` into
`[(0,3),(5,6)]`, leaves a list of pairwise disjoint intervals sorted by
start (each start strictly above the previous end, ends not below starts)
unchanged, and maps the empty list to the empty list. -/
theorem get_line_union_spec :
    get_line_union [(⟨0, 2⟩ : HorizontalLine ℚ), ⟨1, 3⟩, ⟨5, 6⟩] =
      [⟨0, 3⟩, ⟨5, 6⟩] ∧
    (∀ lines : List (HorizontalLine ℚ),
      List.Chain' (fun a b => a.stop < b.start) lines →
      (∀ l ∈ lines, l.start ≤ l.stop) →
      get_line_union lines = lines) ∧
    get_line_union ([] : List (HorizontalLine ℚ)) = [] := by
  refine ⟨?_, ?_, ?_⟩
  · have hs : List.Pairwise
        (fun a b : HorizontalLine ℚ => decide (a.start ≤ b.start) = true)
        [⟨0, 2⟩, ⟨1, 3⟩, ⟨5, 6⟩] := by
      norm_num [List.pairwise_cons]
    unfold get_line_union
    rw [List.mergeSort_of_sorted hs]
    norm_num [get_line_union_go]
  · intro lines hchain hwf
    have hpw := chain_interval_pairwise lines hchain hwf
    have hs : List.Pairwise
        (fun a b : HorizontalLine ℚ => decide (a.start ≤ b.start) = true) lines := by
      refine List.Pairwise.imp_of_mem ?_ hpw
      intro a b ha hb hab
      have h1 : a.start ≤ a.stop := hwf a ha
      simp only [decide_eq_true_eq]
      linarith
    unfold get_line_union
    rw [List.mergeSort_of_sorted hs]
    cases lines with
    | nil => rfl
    | cons first rest => exact get_line_union_go_disjoint rest first hpw
  · unfold get_line_union
    rw [List.mergeSort_nil]

/-- Witness for C8 (the unchanged-input clause) at the disjoint sorted
list `[(0,1),(2,3)]`. -/
theorem get_line_union_spec_witness :
    get_line_union [(⟨0, 1⟩ : HorizontalLine ℚ), ⟨2, 3⟩] = [⟨0, 1⟩, ⟨2, 3⟩] :=
  get_line_union_spec.2.1 [⟨0, 1⟩, ⟨2, 3⟩]
    (by norm_num [List.chain'_cons]) (by norm_num)

/-- **C9**: degenerate circle pairs — two coincident circles of equal
radius, or two concentric circles of different radii — make
`get_intersections` return `none` (and, being a total function of the
model, it raises nothing). -/
theorem get_intersections_degenerate :
    (∀ x y r : ℝ, get_intersections ⟨x, y, r⟩ ⟨x, y, r⟩ = none) ∧
    (∀ x y r0 r1 : ℝ, r0 ≠ r1 →
      get_intersections ⟨x, y, r0⟩ ⟨x, y, r1⟩ = none) := by
  constructor
  · intro x y r
    unfold get_intersections
    rw [show (x - x : ℝ) = 0 from sub_self x, show (y - y : ℝ) = 0 from sub_self y]
    norm_num
  · intro x y r0 r1 hne
    unfold get_intersections
    rw [show (x - x : ℝ) = 0 from sub_self x, show (y - y : ℝ) = 0 from sub_self y]
    norm_num
    intro _ h2 h3
    exact absurd (sub_eq_zero.mp h2) h3

/-- Witness for C9 at concrete concentric circles of radii 1 and 2. -/
theorem get_intersections_degenerate_witness :
    get_intersections (⟨0, 0, 1⟩ : Circle ℝ) ⟨0, 0, 2⟩ = none :=
  get_intersections_degenerate.2 0 0 1 2 (by norm_num)

/-- **C6**: `binary_search` errors iff no evaluated parameter succeeded;
a normal return carries the smallest evaluated success together with the
configuration the evaluator produced for it. -/
theorem binary_search_error_iff_no_success :
    ∀ (start endp : ℚ) (evaluator : ℚ → Bool × List (Circle ℚ)),
      ((∃ msg, binary_search start endp evaluator = .error msg) ↔
        ∀ e ∈ binary_search_trace evaluator start endp, e.2.1 = false) ∧
      (∀ p cs, binary_search start endp evaluator = .ok (p, cs) →
        (p, true, cs) ∈ binary_search_trace evaluator start endp ∧
        cs = (evaluator p).2 ∧
        ∀ e ∈ binary_search_trace evaluator start endp,
          e.2.1 = true → p ≤ e.1) := by
  intro start endp evaluator
  constructor
  · unfold binary_search
    rw [binary_search_loop_error_iff start endp none none none (by simp)]
    simp
  · intro p cs hok
    unfold binary_search at hok
    obtain ⟨hmem, htr, _⟩ :=
      binary_search_loop_ok start endp none none none
        (fun s hs => by simp at hs) p cs hok
    rcases hmem with hmem | ⟨h1, _⟩
    · refine ⟨hmem, ?_, htr⟩
      have h2 := (binary_search_trace_entries start endp _ hmem).2
      simpa using h2
    · simp at h1

/-- Witness for C6: the concrete run on `[0, 1/500]` with the
always-succeeding evaluator returns its probe `1/1000`, which is recorded
in the trace and below every traced success. -/
theorem binary_search_error_iff_no_success_witness :
    ((1 / 1000 : ℚ), true, ([] : List (Circle ℚ))) ∈
      binary_search_trace const_true_evaluator 0 (1 / 500) ∧
    ([] : List (Circle ℚ)) = (const_true_evaluator (1 / 1000)).2 ∧
    ∀ e ∈ binary_search_trace const_true_evaluator 0 (1 / 500),
      e.2.1 = true → (1 / 1000 : ℚ) ≤ e.1 :=
  (binary_search_error_iff_no_success 0 (1 / 500) const_true_evaluator).2
    (1 / 1000) [] binary_search_run_example

/-- **C3**: the code does *not* treat the single circle `(0, 0, 1)` as a
terminal zero-cost case: the loop reaches `ct = distance / (1 - r)` with
`r = 1` and divides by zero (`ZeroDivisionError` in Python, `none` in the
model), instead of returning normally as the claim demands. -/
theorem get_distance_traveled_unit_disk_none :
    get_distance_traveled [(⟨0, 0, 1⟩ : Circle ℝ)] = none := by
  unfold get_distance_traveled get_distance_traveled_go
  norm_num

/-- **C5 (amended)**: for equal radii `r > 0` at center distance `d` with
`0 < d < 2r`, `get_intersections` returns exactly two points, symmetric
about the x-axis and distinct; for `d > 2r` (strict) it returns `none`.
(At exact tangency `d = 2r` it returns the tangency point twice, not
`none` — see the counterexample.) -/
theorem get_intersections_equal_radius_pair :
    ∀ d r : ℝ, 0 < d → 0 < r →
      (d < 2 * r →
        ∃ h : ℝ, 0 < h ∧
          get_intersections ⟨-(d / 2), 0, r⟩ ⟨d / 2, 0, r⟩ =
            some ((0, -h), (0, h))) ∧
      (2 * r < d →
        get_intersections ⟨-(d / 2), 0, r⟩ ⟨d / 2, 0, r⟩ = none) := by
  intro d r hd hr
  have hd0 : d ≠ 0 := ne_of_gt hd
  have hdist : Real.sqrt ((d / 2 - -(d / 2)) ^ 2 + ((0 : ℝ) - 0) ^ 2) = d := by
    rw [show (d / 2 - -(d / 2) : ℝ) = d by ring,
      show ((0 : ℝ) - 0) ^ 2 = 0 by ring, add_zero]
    exact Real.sqrt_sq hd.le
  constructor
  · intro hlt
    refine ⟨Real.sqrt (r ^ 2 - ((r ^ 2 - r ^ 2 + d ^ 2) / (2 * d)) ^ 2), ?_, ?_⟩
    · apply Real.sqrt_pos.mpr
      have ha : (r ^ 2 - r ^ 2 + d ^ 2) / (2 * d) = d / 2 := by
        field_simp
        ring
      rw [ha]
      nlinarith
    · simp only [get_intersections]
      rw [hdist]
      rw [if_neg (by push_neg; linarith : ¬ d > r + r)]
      rw [if_neg (by rw [sub_self, abs_zero]; push_neg; linarith :
        ¬ d < |r - r|)]
      rw [if_neg (fun hc => hd0 hc.1)]
      have h1 : (0 : ℝ) - 0 = 0 := by ring
      rw [Option.some_inj, Prod.mk.injEq, Prod.mk.injEq, Prod.mk.injEq]
      refine ⟨⟨?_, ?_⟩, ?_, ?_⟩ <;> field_simp <;> ring
  · intro hgt
    simp only [get_intersections]
    rw [hdist]
    rw [if_pos (by linarith : d > r + r)]

/-- Counterexample to C5 as stated: at exact external tangency
(`d = 2, r = 1`, so `d ≥ 2r`) the code does not return `none` — it
returns the tangency point `(0, 0)` twice. -/
theorem get_intersections_tangent_counterexample :
    get_intersections (⟨-1, 0, 1⟩ : Circle ℝ) ⟨1, 0, 1⟩ =
      some ((0, 0), (0, 0)) ∧
    get_intersections (⟨-1, 0, 1⟩ : Circle ℝ) ⟨1, 0, 1⟩ ≠ none := by
  have hdist : Real.sqrt (((1 : ℝ) - -1) ^ 2 + ((0 : ℝ) - 0) ^ 2) = 2 := by
    rw [show ((1 : ℝ) - -1) ^ 2 + ((0 : ℝ) - 0) ^ 2 = 2 ^ 2 by ring]
    exact Real.sqrt_sq (by norm_num)
  have hmain : get_intersections (⟨-1, 0, 1⟩ : Circle ℝ) ⟨1, 0, 1⟩ =
      some ((0, 0), (0, 0)) := by
    simp only [get_intersections]
    rw [hdist]
    rw [if_neg (by norm_num), if_neg (by norm_num), if_neg (by norm_num)]
    rw [show ((1 : ℝ) ^ 2 - 1 ^ 2 + 2 ^ 2) / (2 * 2) = 1 by norm_num]
    rw [show (1 : ℝ) ^ 2 - 1 ^ 2 = 0 by norm_num, Real.sqrt_zero]
    norm_num
  exact ⟨hmain, by rw [hmain]; simp⟩

/-- Witness for C5 at `d = 1`, `r = 1` (proper overlap): two distinct
points symmetric about the x-axis. -/
theorem get_intersections_equal_radius_pair_witness :
    ∃ h : ℝ, 0 < h ∧
      get_intersections ⟨-(1 / 2), 0, 1⟩ ⟨1 / 2, 0, 1⟩ =
        some ((0, -h), (0, h)) :=
  (get_intersections_equal_radius_pair 1 1 (by norm_num) (by norm_num)).1
    (by norm_num)

/-- **C10**: `rotate_circles` on a non-empty list returns a list with the
same radii in order (only centers change), and when the first circle does
not intersect the unit circle it returns the input unchanged. -/
theorem rotate_circles_preserves_radii :
    ∀ circles : List (Circle ℝ), circles ≠ [] →
      ∃ out, rotate_circles circles = some out ∧
        out.map Circle.r = circles.map Circle.r ∧
        (∀ first rest, circles = first :: rest →
          get_intersections first UNIT_CIRCLE_R = none → out = circles) := by
  intro circles hne
  match circles with
  | first :: rest =>
    cases hint : get_intersections first UNIT_CIRCLE_R with
    | none =>
      refine ⟨first :: rest, ?_, rfl, fun f r h hnone => rfl⟩
      simp only [rotate_circles, hint]
    | some pq =>
      obtain ⟨p1, p2⟩ := pq
      have hrw : rotate_circles (first :: rest) =
          some ((first :: rest).map fun circle =>
            ⟨circle.x * Real.cos (atan2 (if p2.2 ≤ p1.2 then p1 else p2).2
                (if p2.2 ≤ p1.2 then p1 else p2).1) -
              circle.y * Real.sin (atan2 (if p2.2 ≤ p1.2 then p1 else p2).2
                (if p2.2 ≤ p1.2 then p1 else p2).1),
             -(circle.x * Real.sin (atan2 (if p2.2 ≤ p1.2 then p1 else p2).2
                (if p2.2 ≤ p1.2 then p1 else p2).1) +
               circle.y * Real.cos (atan2 (if p2.2 ≤ p1.2 then p1 else p2).2
                (if p2.2 ≤ p1.2 then p1 else p2).1)),
             circle.r⟩) := by
        simp only [rotate_circles, hint]
      refine ⟨_, hrw, ?_, ?_⟩
      · simp [List.map_map, Function.comp_def]
      · intro f r h hnone
        injection h with h1 h2
        subst h1
        rw [hint] at hnone
        cases hnone

/-- Witness for C10 at the single far-away circle `(3, 0, 1)`, which does
not intersect the unit circle. -/
theorem rotate_circles_preserves_radii_witness :
    ∃ out, rotate_circles [(⟨3, 0, 1⟩ : Circle ℝ)] = some out ∧
      out.map Circle.r = [(⟨3, 0, 1⟩ : Circle ℝ)].map Circle.r ∧
      (∀ first rest, [(⟨3, 0, 1⟩ : Circle ℝ)] = first :: rest →
        get_intersections first UNIT_CIRCLE_R = none →
          out = [(⟨3, 0, 1⟩ : Circle ℝ)]) :=
  rotate_circles_preserves_radii [⟨3, 0, 1⟩] (by simp)

/-- The scanline checker rejects the empty circle list at the very first
sample height `y = -1`: the chord union is empty while the unit disk's
chord exists (degenerately). -/
theorem covers_unit_circle_2_empty : covers_unit_circle_2 [] = false := by
  unfold covers_unit_circle_2
  unfold covers_unit_circle_2_loop
  rw [dif_pos (by norm_num : (-1 : ℝ) < 1)]
  have hline : get_horizontal_line UNIT_CIRCLE_R (-1) =
      some ⟨0 - Real.sqrt (1 ^ 2 - (-1 - 0) ^ 2),
            0 + Real.sqrt (1 ^ 2 - (-1 - 0) ^ 2)⟩ := by
    unfold get_horizontal_line UNIT_CIRCLE_R
    rw [if_neg (by rw [show ((-1 : ℝ) - 0) = -1 by ring, abs_neg, abs_one]; norm_num)]
  have hcov : do_circles_cover_unit_circle [] (-1) = false := by
    unfold do_circles_cover_unit_circle
    rw [hline]
    simp [get_line_union]
  rw [if_pos hcov]

/-- The analytic checker rejects the empty circle list: the residual
region is the whole unit-disk polygon, whose area (at least 1, the area of
an inscribed square) is far above epsilon. -/
theorem covers_unit_circle_3_empty : ¬ covers_unit_circle_3 [] := by
  unfold covers_unit_circle_3
  rw [show (⋃ circle ∈ ([] : List (Circle ℝ)), get_circle_polygon circle) =
    (∅ : Set (ℝ × ℝ)) by simp]
  rw [Set.diff_empty]
  intro hlt
  have hsub : (Set.Icc (-(1 / 2) : ℝ) (1 / 2)) ×ˢ (Set.Icc (-(1 / 2) : ℝ) (1 / 2)) ⊆
      PRECISION.unit_circle_polygon := by
    rintro ⟨px, py⟩ ⟨hx, hy⟩
    simp only [Set.mem_Icc] at hx hy
    simp only [PRECISION, get_circle_polygon, UNIT_CIRCLE_R, Set.mem_setOf_eq]
    nlinarith [hx.1, hx.2, hy.1, hy.2]
  have hsup : PRECISION.unit_circle_polygon ⊆
      (Set.Icc (-1 : ℝ) 1) ×ˢ (Set.Icc (-1 : ℝ) 1) := by
    rintro ⟨px, py⟩ hp
    simp only [PRECISION, get_circle_polygon, UNIT_CIRCLE_R, Set.mem_setOf_eq] at hp
    constructor <;> rw [Set.mem_Icc] <;> constructor <;> nlinarith [sq_nonneg px, sq_nonneg py]
  have h1 : (1 : ENNReal) ≤ MeasureTheory.volume PRECISION.unit_circle_polygon := by
    calc (1 : ENNReal)
        = MeasureTheory.volume ((Set.Icc (-(1 / 2) : ℝ) (1 / 2)) ×ˢ
            (Set.Icc (-(1 / 2) : ℝ) (1 / 2))) := by
          rw [MeasureTheory.Measure.volume_eq_prod, MeasureTheory.Measure.prod_prod,
            Real.volume_Icc]
          norm_num
      _ ≤ _ := MeasureTheory.measure_mono hsub
  have h2 : MeasureTheory.volume PRECISION.unit_circle_polygon ≤ 4 := by
    calc MeasureTheory.volume PRECISION.unit_circle_polygon
        ≤ MeasureTheory.volume ((Set.Icc (-1 : ℝ) 1) ×ˢ (Set.Icc (-1 : ℝ) 1)) :=
          MeasureTheory.measure_mono hsup
      _ = 4 := by
          rw [MeasureTheory.Measure.volume_eq_prod, MeasureTheory.Measure.prod_prod,
            Real.volume_Icc]
          rw [show (1 - (-1) : ℝ) = 2 by norm_num,
            ← ENNReal.ofReal_mul (by norm_num)]
          norm_num
  have hne : MeasureTheory.volume PRECISION.unit_circle_polygon ≠ ⊤ := by
    intro htop
    rw [htop] at h2
    exact absurd h2 (by simp)
  have h3 : (1 : ℝ) ≤ (MeasureTheory.volume PRECISION.unit_circle_polygon).toReal := by
    have h4 := ENNReal.toReal_mono hne h1
    simpa using h4
  rw [show ((PRECISION.epsilon : ℚ) : ℝ) = 1 / 1000 by norm_num [PRECISION]] at hlt
  linarith

/-- **C1**: on the empty circle list all three coverage checkers report
"not covered": the quadtree checker `covers_unit_circle`, the scanline
checker `covers_unit_circle_2` and the polygon-boolean checker
`covers_unit_circle_3`. -/
theorem coverage_checkers_empty_false :
    covers_unit_circle [] = false ∧
    covers_unit_circle_2 [] = false ∧
    ¬ covers_unit_circle_3 [] :=
  ⟨covers_unit_circle_empty, covers_unit_circle_2_empty,
    covers_unit_circle_3_empty⟩

/-- Counterexample to C2 as stated: on the empty circle list the BFS does
*not* return a square of side length 1 — it returns the side-`1/2` square
`(-1/2, -1/2)`, because no top-level quadrant has all four corners inside
the unit circle, so none qualifies. -/
theorem get_biggest_uncovered_square_empty_not_side_one :
    get_biggest_uncovered_square [] = some ⟨-1/2, -1/2, 1/2⟩ ∧
    ¬ (⟨-1/2, -1/2, 1/2⟩ : Square).side_length = 1 :=
  ⟨get_biggest_uncovered_square_empty, by norm_num⟩

/-- **C2 (amended)**: `get_biggest_uncovered_square` on the empty circle
list returns the square `(-1/2, -1/2)` of side length `1/2`: the first
dequeued square of the subdivision all of whose corners lie inside the
unit circle (and are trivially uncovered). -/
theorem get_biggest_uncovered_square_empty_side_half :
    ∃ sq, get_biggest_uncovered_square [] = some sq ∧ sq.side_length = 1 / 2 :=
  ⟨⟨-1/2, -1/2, 1/2⟩, get_biggest_uncovered_square_empty, rfl⟩

/-- **C4**: in both BFS searches every enqueued child square has half the
side length of its parent; every reachable state of the work queue holds
squares in non-increasing side-length order (so all squares of one side
length are dequeued before any smaller one); and consequently a returned
square qualifies and its side length bounds the side length of every
qualifying square reachable in the subdivision. -/
theorem bfs_returns_largest_qualifying_square :
    (∀ sq : Square, ∀ child ∈ subsquares sq,
      child.side_length = sq.side_length / 2) ∧
    (∀ (threshold : ℕ) (circles : List (Circle ℚ)) (q : List Square),
      QueueStates threshold circles q →
        q.Pairwise fun a b => b.side_length ≤ a.side_length) ∧
    (∀ (circles : List (Circle ℚ)) (res : Square),
      get_biggest_uncovered_square circles = some res →
        3 < num_uncovered_corners circles res ∧
        ∀ sq, Reaches 3 circles sq → 3 < num_uncovered_corners circles sq →
          sq.side_length ≤ res.side_length) ∧
    (∀ (circles : List (Circle ℚ)) (res : Square),
      get_biggest_semicovered_square circles = some res →
        0 < num_uncovered_corners circles res ∧
        ∀ sq, Reaches 0 circles sq → 0 < num_uncovered_corners circles sq →
          sq.side_length ≤ res.side_length) := by
  refine ⟨fun sq child h => subsquares_side h,
    fun threshold circles q h => (queueInv_states h).sorted, ?_, ?_⟩
  · intro circles res hres
    exact search_bfs_largest initial_queue (queueInv_initial 3 circles) res hres
  · intro circles res hres
    exact search_bfs_largest initial_queue (queueInv_initial 0 circles) res hres

/-- Witness for C4: the concrete run on the empty circle list returns the
square `(-1/2, -1/2, 1/2)`, which qualifies and is at least as large as
the reachable qualifying square `(-1/2, -1/2, 1/2)` itself. -/
theorem bfs_returns_largest_qualifying_square_witness :
    3 < num_uncovered_corners [] ⟨-1/2, -1/2, 1/2⟩ ∧
    (⟨-1/2, -1/2, 1/2⟩ : Square).side_length ≤
      (⟨-1/2, -1/2, 1/2⟩ : Square).side_length := by
  have h := bfs_returns_largest_qualifying_square.2.2.1 [] ⟨-1/2, -1/2, 1/2⟩
    get_biggest_uncovered_square_empty
  have hinit : Reaches 3 [] ⟨-1, -1, 1⟩ :=
    Reaches.init _ (by simp [initial_queue])
  have hexp : expandable 3 [] ⟨-1, -1, 1⟩ := by
    refine ⟨?_, ?_, ?_, ?_⟩
    · norm_num [num_outside_unit_circle, corners, is_point_covered,
        UNIT_CIRCLE, List.countP_cons, List.countP_nil]
    · norm_num [num_uncovered_corners, corners, is_point_covered,
        is_point_covered_by_any, UNIT_CIRCLE, List.countP_cons, List.countP_nil,
        List.any_nil]
    · norm_num [num_uncovered_corners, corners, is_point_covered,
        is_point_covered_by_any, UNIT_CIRCLE, List.countP_cons, List.countP_nil,
        List.any_nil]
    · norm_num [PRECISION]
  have hmem : (⟨-1/2, -1/2, 1/2⟩ : Square) ∈ subsquares ⟨-1, -1, 1⟩ := by
    norm_num [subsquares]
  exact ⟨h.1, h.2 _ (Reaches.step _ _ hinit hexp hmem) h.1⟩

end Drone
